import Mathlib

/-!
# Sub-directory fetcher (`pkg/module/subdirfetcher/fetcher.go`)

A shallow embedding of the redirect table lookup `VanityURLS.FindPrefix` and of
the orchestration function `Fetcher.Fetch`, followed by the properties proved
about them.

Go strings are modelled by Lean strings; for well-formed UTF-8 text the byte
prefix test of `strings.HasPrefix` and the character prefix test coincide.
-/

namespace SubdirFetcher

/-! ## The redirect table -/

/-- One redirect rule, `type VanityURL struct { Prefix, Git, Offset string }`. -/
structure VanityURL where
  Prefix : String
  Git : String
  Offset : String
deriving DecidableEq, Repr

/-- The zero value `VanityURL{}`. -/
def VanityURL.zero : VanityURL := { Prefix := "", Git := "", Offset := "" }

/-- The table type, `type VanityURLS []VanityURL`. -/
abbrev VanityURLS := List VanityURL

/-- Go's `strings.HasPrefix(s, prefix)`:
`len(s) >= len(prefix) && s[0:len(prefix)] == prefix`. -/
def HasPrefix (s pre : String) : Bool :=
  decide (s.data.length ≥ pre.data.length) && (s.data.take pre.data.length == pre.data)

/-- The method `func (v *VanityURLS) FindPrefix(mod string) (VanityURL, bool)`:
the `for _, vv := range *v` loop returns at the first rule whose test succeeds,
and falls through to `VanityURL{}, false`. -/
def FindPrefix : VanityURLS → String → VanityURL × Bool
  | [], _ => (VanityURL.zero, false)
  | vv :: rest, mod => if HasPrefix mod vv.Prefix then (vv, true) else FindPrefix rest mod

/-- The package variable `vanityURLS`. -/
def vanityURLS : VanityURLS :=
  [ { Prefix := "foo.com/go/pkg/test",
      Git := "git@bitbucket.org/fooOrg/test",
      Offset := "/src/golang" } ]

/-! ## Values exchanged with the collaborators -/

/-- Go's `[]byte`, and the contents of a byte stream. -/
abbrev Bytes := List UInt8

/-- The `context.Context` argument, reduced to what a callee can observe of
cancellation (`ctx.Err() != nil`). -/
structure Context where
  cancelled : Bool
deriving DecidableEq, Repr

/-- Go `error` values that are not `nil`. The constructor `E` is the wrapper
built by `errors.E`; `leaf` stands for every error raised by a collaborator. -/
inductive GoError where
  | leaf (text : String)
  | E (op : String) (err : GoError)
deriving DecidableEq, Repr

/-- Modelled from the spec: `errors.E(op, err)` of `pkg/errors`, whose source is
not among the files. The spec says an error is "wrapped with this operation's
identity and returned" and that errors are "tagged with the operation that raised
them and wrapped up through each call layer unchanged in kind". -/
def errors.E (op : String) (err : GoError) : GoError := GoError.E op err

/-- The operation tag carried by a wrapped error. -/
def GoError.Op : GoError → Option String
  | .leaf _ => none
  | .E op _ => some op

/-- The error carried inside a wrapper. -/
def GoError.Unwrap : GoError → Option GoError
  | .leaf _ => none
  | .E _ err => some err

/-- Modelled from the spec: `modfetch.RevInfo`, declared in a file that is not
among the sources; "an info record (JSON object containing at minimum the
canonical version string and the resolved revision's commit timestamp)".
`Fetch` reads only the field `Version`. -/
structure RevInfo where
  Version : String
  Time : Int
deriving DecidableEq, Repr

/-- The result record `storage.Version`, with the four fields `Fetch` fills in.
`Zip` holds the bytes that the returned `io.ReadCloser` yields. -/
structure Version where
  Mod : Bytes
  Zip : Bytes
  Info : Bytes
  Semver : String
deriving DecidableEq, Repr

/-- The collaborators `Fetch` calls, each as a function of the state of the
outside world `W` (file system, remote repositories). `goGetFetch` and `TempDir`
come from the receiver fields `f.goGet` and `f.fs`; `Host`, `Repo` and `Rev` are
the types of the repository handle, the code repository (a `*modfetch.CodeRepo`)
and the revision descriptor returned by `Stat`. `Zip` returns the bytes it wrote
to the writer it was given together with its error. -/
structure Fetcher (W Host Repo Rev : Type) where
  goGetFetch : Context → String → String → W → (Option Version × Option GoError) × W
  TempDir : String → String → W → Except GoError String × W
  NewGitRepo : String → String → Bool → String → W → Except GoError Host × W
  NewCodeRepo : Host → String → String → String → W → Except GoError Repo × W
  Stat : Host → String → W → Except GoError Rev × W
  Convert : Repo → Rev → String → W → Except GoError RevInfo × W
  GoMod : Repo → String → W → Except GoError Bytes × W
  Zip : Repo → String → W → (Bytes × Option GoError) × W
  Marshal : RevInfo → Except GoError Bytes

/-- A call made by `Fetch`, with the arguments it passed. -/
inductive Call where
  | goGetFetch (ctx : Context) (mod ver : String)
  | TempDir (dir pattern : String)
  | NewGitRepo (root remote : String) (localOK : Bool) (offset : String)
  | NewCodeRepo (path root offset : String)
  | Stat (rev : String)
  | Convert (statVers : String)
  | GoMod (version : String)
  | Zip (version : String)
  | Marshal (info : RevInfo)
deriving DecidableEq, Repr

/-- The callee of a call. -/
def Call.name : Call → String
  | .goGetFetch _ _ _ => "goGet.Fetch"
  | .TempDir _ _ => "afero.TempDir"
  | .NewGitRepo _ _ _ _ => "codehost.NewGitRepo"
  | .NewCodeRepo _ _ _ => "modfetch.NewCodeRepo"
  | .Stat _ => "codeHost.Stat"
  | .Convert _ => "codeRepo.Convert"
  | .GoMod _ => "codeRepo.GoMod"
  | .Zip _ => "codeRepo.Zip"
  | .Marshal _ => "json.Marshal"

/-- One executed step: the call and the error it returned (`none` is `nil`). -/
structure Event where
  call : Call
  err : Option GoError
deriving DecidableEq, Repr

/-- What a call of `Fetch` leaves behind: the returned pair
`(*storage.Version, error)`, the state of the world, and the steps it executed,
in order. -/
structure Outcome (W : Type) where
  result : Option Version
  err : Option GoError
  world : W
  trace : List Event

/-- The constant `const op errors.Op = "SubdirFetcher.Fetch"`. -/
def op : String := "SubdirFetcher.Fetch"

/-- The method `func (f *Fetcher) Fetch(ctx, mod, ver) (*storage.Version, error)`.
Every `if err != nil { return nil, errors.E(op, err) }` is one `.error` branch. -/
def Fetch {W Host Repo Rev : Type} (f : Fetcher W Host Repo Rev) (ctx : Context)
    (mod ver : String) (w : W) : Outcome W :=
  match FindPrefix vanityURLS mod with
  | (_, false) =>
    match f.goGetFetch ctx mod ver w with
    | ((res, err), w1) => ⟨res, err, w1, [⟨.goGetFetch ctx mod ver, err⟩]⟩
  | (vanity, true) =>
    match f.TempDir "" "athens" w with
    | (.error err, w1) =>
      ⟨none, some (errors.E op err), w1, [⟨.TempDir "" "athens", some err⟩]⟩
    | (.ok goPathRoot, w1) =>
      let t1 : List Event := [⟨.TempDir "" "athens", none⟩]
      match f.NewGitRepo goPathRoot vanity.Git false vanity.Offset w1 with
      | (.error err, w2) =>
        ⟨none, some (errors.E op err), w2,
          t1 ++ [⟨.NewGitRepo goPathRoot vanity.Git false vanity.Offset, some err⟩]⟩
      | (.ok codeHost, w2) =>
        let t2 := t1 ++ [⟨.NewGitRepo goPathRoot vanity.Git false vanity.Offset, none⟩]
        match f.NewCodeRepo codeHost mod mod vanity.Offset w2 with
        | (.error err, w3) =>
          ⟨none, some (errors.E op err), w3,
            t2 ++ [⟨.NewCodeRepo mod mod vanity.Offset, some err⟩]⟩
        | (.ok codeRepo, w3) =>
          let t3 := t2 ++ [⟨.NewCodeRepo mod mod vanity.Offset, none⟩]
          match f.Stat codeHost ver w3 with
          | (.error err, w4) =>
            ⟨none, some (errors.E op err), w4, t3 ++ [⟨.Stat ver, some err⟩]⟩
          | (.ok revInfo, w4) =>
            let t4 := t3 ++ [⟨.Stat ver, none⟩]
            match f.Convert codeRepo revInfo ver w4 with
            | (.error err, w5) =>
              ⟨none, some (errors.E op err), w5, t4 ++ [⟨.Convert ver, some err⟩]⟩
            | (.ok info, w5) =>
              let t5 := t4 ++ [⟨.Convert ver, none⟩]
              match f.GoMod codeRepo info.Version w5 with
              | (.error err, w6) =>
                ⟨none, some (errors.E op err), w6, t5 ++ [⟨.GoMod info.Version, some err⟩]⟩
              | (.ok gomod, w6) =>
                let t6 := t5 ++ [⟨.GoMod info.Version, none⟩]
                match f.Zip codeRepo info.Version w6 with
                | ((_, some err), w7) =>
                  ⟨none, some (errors.E op err), w7, t6 ++ [⟨.Zip info.Version, some err⟩]⟩
                | ((written, none), w7) =>
                  let bb : Bytes := [] ++ written
                  let t7 := t6 ++ [⟨.Zip info.Version, none⟩]
                  match f.Marshal info with
                  | .error err =>
                    ⟨none, some (errors.E op err), w7, t7 ++ [⟨.Marshal info, some err⟩]⟩
                  | .ok infoJSON =>
                    ⟨some { Mod := gomod, Zip := bb, Info := infoJSON, Semver := info.Version },
                      none, w7, t7 ++ [⟨.Marshal info, none⟩]⟩

/-! ## A concrete fetcher over an in-memory file system

The world is the list of directories that exist. `failAt` selects the step that
fails, if any (1 = `TempDir`, ..., 8 = `json.Marshal`). -/

/-- Bytes of a string of ASCII characters. -/
def asBytes (s : String) : Bytes := s.data.map (fun c => c.toNat.toUInt8)

/-- An in-memory fetcher. `TempDir` creates `/tmp/athens-1` when it does not
exist; no other step touches the directory list. `Convert` keeps a version that
starts with `v` and derives a version from any other revision name. -/
def memFetcher (failAt : Option Nat) : Fetcher (List String) String String String where
  goGetFetch := fun _ mod ver w =>
    ((some { Mod := asBytes mod, Zip := [], Info := [], Semver := ver }, none), w)
  TempDir := fun _ pattern w =>
    let name := "/tmp/" ++ pattern ++ "-1"
    if failAt = some 1 ∨ name ∈ w then (.error (.leaf "TempDir"), w) else (.ok name, name :: w)
  NewGitRepo := fun root remote _ _ w =>
    if failAt = some 2 then (.error (.leaf "RepositoryUnreachable"), w)
    else (.ok (root ++ ":" ++ remote), w)
  NewCodeRepo := fun _ path _ offset w =>
    if failAt = some 3 then (.error (.leaf "NewCodeRepo"), w) else (.ok (path ++ offset), w)
  Stat := fun _ rev w =>
    if failAt = some 4 then (.error (.leaf "RevisionNotFound"), w) else (.ok rev, w)
  Convert := fun _ rev _ w =>
    if failAt = some 5 then (.error (.leaf "AmbiguousVersion"), w)
    else if HasPrefix rev "v" then (.ok { Version := rev, Time := 1500000000 }, w)
    else (.ok { Version := "v0.0.0-20170714024000-" ++ rev, Time := 1500000000 }, w)
  GoMod := fun repo _ w =>
    if failAt = some 6 then (.error (.leaf "ManifestNotFound"), w)
    else (.ok (asBytes ("module " ++ repo)), w)
  Zip := fun _ version w =>
    if failAt = some 7 then ((asBytes "PK", some (.leaf "ArchiveTooLarge")), w)
    else ((asBytes ("PK" ++ version), none), w)
  Marshal := fun info =>
    if failAt = some 8 then .error (.leaf "json") else .ok (asBytes info.Version)

/-! ## Predicates used to state the properties -/

/-- The string `p` is a literal prefix of `m`: `m` is `p` followed by some text. -/
def LiteralPrefix (p m : String) : Prop := ∃ s : String, m = p ++ s

/-- The callees of the redirect path, in program order. -/
def redirectSteps : List String :=
  ["afero.TempDir", "codehost.NewGitRepo", "modfetch.NewCodeRepo", "codeHost.Stat",
   "codeRepo.Convert", "codeRepo.GoMod", "codeRepo.Zip", "json.Marshal"]

section
variable {W Host Repo Rev : Type}

/-! The stages of the redirect pipeline, stated on the collaborators' own results.
Each predicate says that the steps up to one point returned without error, and
names the values and the world they left. -/

/-- The workspace acquisition returned directory `root`, leaving world `w1`. -/
def Acquired (f : Fetcher W Host Repo Rev) (w : W) (root : String) (w1 : W) : Prop :=
  f.TempDir "" "athens" w = (.ok root, w1)

/-- The repository at `vanity.Git` was opened in the workspace, with offset
`vanity.Offset`, giving the handle `host`. -/
def Opened (f : Fetcher W Host Repo Rev) (vanity : VanityURL) (w : W) (host : Host)
    (w2 : W) : Prop :=
  ∃ root w1, Acquired f w root w1 ∧
    f.NewGitRepo root vanity.Git false vanity.Offset w1 = (.ok host, w2)

/-- The code repository `repo` was built on the handle `host`. -/
def Built (f : Fetcher W Host Repo Rev) (vanity : VanityURL) (mod : String) (w : W)
    (host : Host) (repo : Repo) (w3 : W) : Prop :=
  ∃ w2, Opened f vanity w host w2 ∧
    f.NewCodeRepo host mod mod vanity.Offset w2 = (.ok repo, w3)

/-- `Stat(ver)` on the handle returned the revision `rev`. -/
def Resolved (f : Fetcher W Host Repo Rev) (vanity : VanityURL) (mod ver : String) (w : W)
    (repo : Repo) (rev : Rev) (w4 : W) : Prop :=
  ∃ host w3, Built f vanity mod w host repo w3 ∧ f.Stat host ver w3 = (.ok rev, w4)

/-- `Convert(rev, ver)` returned the record `info`. -/
def Converted (f : Fetcher W Host Repo Rev) (vanity : VanityURL) (mod ver : String) (w : W)
    (repo : Repo) (info : RevInfo) (w5 : W) : Prop :=
  ∃ rev w4, Resolved f vanity mod ver w repo rev w4 ∧
    f.Convert repo rev ver w4 = (.ok info, w5)

/-- `GoMod(info.Version)` returned the bytes `gomod`. -/
def ManifestRead (f : Fetcher W Host Repo Rev) (vanity : VanityURL) (mod ver : String)
    (w : W) (repo : Repo) (info : RevInfo) (gomod : Bytes) (w6 : W) : Prop :=
  ∃ w5, Converted f vanity mod ver w repo info w5 ∧
    f.GoMod repo info.Version w5 = (.ok gomod, w6)

/-- `Zip(info.Version)` wrote the bytes `zipped` and returned no error. -/
def Archived (f : Fetcher W Host Repo Rev) (vanity : VanityURL) (mod ver : String) (w : W)
    (info : RevInfo) (gomod zipped : Bytes) (w7 : W) : Prop :=
  ∃ repo w6, ManifestRead f vanity mod ver w repo info gomod w6 ∧
    f.Zip repo info.Version w6 = ((zipped, none), w7)

/-- Every step of the pipeline returned without error; `v` is the record made of
what they returned and `wf` the world they left. -/
def Succeeds (f : Fetcher W Host Repo Rev) (vanity : VanityURL) (mod ver : String) (w : W)
    (v : Version) (wf : W) : Prop :=
  ∃ info gomod zipped infoJSON, Archived f vanity mod ver w info gomod zipped wf ∧
    f.Marshal info = .ok infoJSON ∧
    v = { Mod := gomod, Zip := zipped, Info := infoJSON, Semver := info.Version }

/-- Step number `n` of the pipeline (1 = workspace acquisition, 2 = repository
open, 3 = code-repo construction, 4 = `Stat`, 5 = `Convert`, 6 = `GoMod`,
7 = `Zip`, 8 = JSON marshalling) is the first to fail: the steps before it
returned without error, and it returned the error `e`, leaving world `wf`. -/
def StepFails (f : Fetcher W Host Repo Rev) (vanity : VanityURL) (mod ver : String) (w : W)
    (n : Nat) (e : GoError) (wf : W) : Prop :=
  (n = 1 ∧ f.TempDir "" "athens" w = (.error e, wf)) ∨
  (n = 2 ∧ ∃ root w1, Acquired f w root w1 ∧
    f.NewGitRepo root vanity.Git false vanity.Offset w1 = (.error e, wf)) ∨
  (n = 3 ∧ ∃ host w2, Opened f vanity w host w2 ∧
    f.NewCodeRepo host mod mod vanity.Offset w2 = (.error e, wf)) ∨
  (n = 4 ∧ ∃ host repo w3, Built f vanity mod w host repo w3 ∧
    f.Stat host ver w3 = (.error e, wf)) ∨
  (n = 5 ∧ ∃ repo rev w4, Resolved f vanity mod ver w repo rev w4 ∧
    f.Convert repo rev ver w4 = (.error e, wf)) ∨
  (n = 6 ∧ ∃ repo info w5, Converted f vanity mod ver w repo info w5 ∧
    f.GoMod repo info.Version w5 = (.error e, wf)) ∨
  (n = 7 ∧ ∃ repo info gomod w6 written, ManifestRead f vanity mod ver w repo info gomod w6 ∧
    f.Zip repo info.Version w6 = ((written, some e), wf)) ∨
  (n = 8 ∧ ∃ info gomod zipped, Archived f vanity mod ver w info gomod zipped wf ∧
    f.Marshal info = .error e)

/-- The all-or-nothing discipline of the outcome `o` of a redirect through the
rule `vanity`. If a step fails, `o` has a `nil` result and a non-`nil` error, its
world is the one the failing step left and its trace ends at that step. A record
in `o` comes with a `nil` error, and then every step returned without error and
the record is made of their results. A `nil` result comes with an error and a
failing step. -/
def AllOrNothing (f : Fetcher W Host Repo Rev) (vanity : VanityURL) (mod ver : String)
    (w : W) (o : Outcome W) : Prop :=
  (∀ n e wf, StepFails f vanity mod ver w n e wf →
      o.result = none ∧ o.err ≠ none ∧ o.world = wf ∧
      o.trace.map (fun ev => ev.call.name) = redirectSteps.take n) ∧
  (∀ v, o.result = some v →
      o.err = none ∧ Succeeds f vanity mod ver w v o.world ∧
      o.trace.map (fun ev => ev.call.name) = redirectSteps) ∧
  (o.result = none → o.err ≠ none ∧ ∃ n e wf, StepFails f vanity mod ver w n e wf)

/-- The error discipline of the outcome `o` of a redirect through the rule
`vanity`: when a step fails with the error `e`, the error of `o` is
`errors.E(op, e)`, tagged `"SubdirFetcher.Fetch"` and carrying `e`; and every
error of `o` is such a wrapper around the error of the failing step. -/
def WrapsStepError (f : Fetcher W Host Repo Rev) (vanity : VanityURL) (mod ver : String)
    (w : W) (o : Outcome W) : Prop :=
  (∀ n e wf, StepFails f vanity mod ver w n e wf →
      o.err = some (errors.E op e) ∧
      (errors.E op e).Op = some "SubdirFetcher.Fetch" ∧
      (errors.E op e).Unwrap = some e) ∧
  (∀ x, o.err = some x →
      ∃ n e wf, StepFails f vanity mod ver w n e wf ∧ x = errors.E op e)

/-- The record `v` is assembled from the values the steps returned: with
`info = Convert(Stat(ver), ver)`, `Semver` is `info.Version`, `Info` is the JSON
marshalling of `info`, `Mod` is what `GoMod(info.Version)` returned and `Zip`
holds what `Zip(info.Version)` wrote; both were called with `info.Version`. -/
def AssembledFrom (f : Fetcher W Host Repo Rev) (mod ver : String) (w : W)
    (o : Outcome W) (v : Version) : Prop :=
  ∃ (vanity : VanityURL) (root : String) (w1 : W) (host : Host) (w2 : W) (repo : Repo)
    (w3 : W) (rev : Rev) (w4 : W) (info : RevInfo) (w5 : W) (gomod : Bytes) (w6 : W)
    (zipped : Bytes) (w7 : W) (infoJSON : Bytes),
    FindPrefix vanityURLS mod = (vanity, true) ∧
    f.TempDir "" "athens" w = (.ok root, w1) ∧
    f.NewGitRepo root vanity.Git false vanity.Offset w1 = (.ok host, w2) ∧
    f.NewCodeRepo host mod mod vanity.Offset w2 = (.ok repo, w3) ∧
    f.Stat host ver w3 = (.ok rev, w4) ∧
    f.Convert repo rev ver w4 = (.ok info, w5) ∧
    f.GoMod repo info.Version w5 = (.ok gomod, w6) ∧
    f.Zip repo info.Version w6 = ((zipped, none), w7) ∧
    f.Marshal info = .ok infoJSON ∧
    v.Semver = info.Version ∧ v.Info = infoJSON ∧ v.Mod = gomod ∧ v.Zip = zipped ∧
    (⟨.GoMod info.Version, none⟩ : Event) ∈ o.trace ∧
    (⟨.Zip info.Version, none⟩ : Event) ∈ o.trace ∧
    (∀ ev ∈ o.trace, ∀ x, (ev.call = .GoMod x ∨ ev.call = .Zip x) → x = info.Version)

/-- No step after the workspace acquisition removes the directory `root`: each of
them, run in a world where `root` exists, leaves a world where it exists. -/
def Undisturbed (f : Fetcher W Host Repo Rev) (dirExists : W → String → Prop)
    (root : String) : Prop :=
  (∀ remote localOK offset w, dirExists w root →
      dirExists (f.NewGitRepo root remote localOK offset w).2 root) ∧
  (∀ host path r offset w, dirExists w root →
      dirExists (f.NewCodeRepo host path r offset w).2 root) ∧
  (∀ host rev w, dirExists w root → dirExists (f.Stat host rev w).2 root) ∧
  (∀ repo rev ver w, dirExists w root → dirExists (f.Convert repo rev ver w).2 root) ∧
  (∀ repo version w, dirExists w root → dirExists (f.GoMod repo version w).2 root) ∧
  (∀ repo version w, dirExists w root → dirExists (f.Zip repo version w).2 root)

end

/-! ## Properties of the table lookup -/

/-- The test of `strings.HasPrefix` succeeds exactly on literal prefixes. -/
theorem HasPrefix_iff (s pre : String) : HasPrefix s pre = true ↔ LiteralPrefix pre s := by
  unfold HasPrefix LiteralPrefix
  constructor
  · intro h
    simp only [Bool.and_eq_true, decide_eq_true_eq, beq_iff_eq] at h
    refine ⟨⟨s.data.drop pre.data.length⟩, ?_⟩
    apply String.ext
    rw [String.data_append]
    have := List.take_append_drop pre.data.length s.data
    rw [h.2] at this
    exact this.symm
  · rintro ⟨t, rfl⟩
    simp [String.data_append]

/-- The test of `strings.HasPrefix` fails exactly on strings that are no prefix. -/
theorem HasPrefix_false_iff (s pre : String) :
    HasPrefix s pre = false ↔ ¬ LiteralPrefix pre s := by
  rw [← HasPrefix_iff]
  cases HasPrefix s pre <;> simp

/-- The lookup either stops at the least index whose rule passes the test, or
finds no rule passing it. -/
theorem FindPrefix_cases (T : VanityURLS) (m : String) :
    (∃ (i : Nat) (r : VanityURL), T[i]? = some r ∧ HasPrefix m r.Prefix = true ∧
        (∀ (j : Nat) (r' : VanityURL), j < i → T[j]? = some r' → HasPrefix m r'.Prefix = false) ∧
        FindPrefix T m = (r, true)) ∨
    ((∀ r ∈ T, HasPrefix m r.Prefix = false) ∧ FindPrefix T m = (VanityURL.zero, false)) := by
  induction T with
  | nil => right; simp [FindPrefix]
  | cons vv rest ih =>
    by_cases hv : HasPrefix m vv.Prefix = true
    · left
      refine ⟨0, vv, by simp, hv, ?_, by simp [FindPrefix, hv]⟩
      intro j r' hj
      omega
    · have hv' : HasPrefix m vv.Prefix = false := by simpa using hv
      rcases ih with ⟨i, r, hi, hr, hmin, hres⟩ | ⟨hnone, hres⟩
      · left
        refine ⟨i + 1, r, by simpa using hi, hr, ?_, by simp [FindPrefix, hv', hres]⟩
        intro j r' hj hjr
        cases j with
        | zero =>
          simp at hjr
          rw [← hjr]
          exact hv'
        | succ j =>
          simp at hjr
          exact hmin j r' (by omega) hjr
      · right
        refine ⟨?_, by simp [FindPrefix, hv', hres]⟩
        intro r hr
        rcases List.mem_cons.mp hr with rfl | hr
        · exact hv'
        · exact hnone r hr

/-- C1: for every table `T` and module path `m`, `FindPrefix` returns
`(T[i], true)` for the least index `i` whose `Prefix` is a literal prefix of `m`
(no rule before `i` matches), or `(VanityURL{}, false)` when no rule matches; and
it returns `(VanityURL{}, false)` exactly when no rule of `T` has a `Prefix` that
is a prefix of `m`. -/
theorem FindPrefix_first_match (T : VanityURLS) (m : String) :
    ((∃ (i : Nat) (r : VanityURL), T[i]? = some r ∧ LiteralPrefix r.Prefix m ∧
        (∀ (j : Nat) (r' : VanityURL), j < i → T[j]? = some r' → ¬ LiteralPrefix r'.Prefix m) ∧
        FindPrefix T m = (r, true)) ∨
      ((∀ r ∈ T, ¬ LiteralPrefix r.Prefix m) ∧ FindPrefix T m = (VanityURL.zero, false))) ∧
    (FindPrefix T m = (VanityURL.zero, false) ↔ ∀ r ∈ T, ¬ LiteralPrefix r.Prefix m) := by
  have key := FindPrefix_cases T m
  simp only [HasPrefix_false_iff, HasPrefix_iff] at key
  refine ⟨key, ?_⟩
  rcases key with ⟨i, r, hi, hr, _, hres⟩ | ⟨hnone, hres⟩
  · constructor
    · intro h
      rw [hres] at h
      simp at h
    · intro h
      exact absurd hr (h r (List.getElem?_mem hi))
  · exact ⟨fun _ => hnone, fun _ => hres⟩

/-- C7: `FindPrefix` has no longest-prefix preference. When the rules at indices
`i < j` both have a `Prefix` that is a prefix of `m`, the rule returned sits at
the least matching index `k`, and `k ≤ i < j`: the rule at `j` is never chosen in
favour of the rule at `i`, however long its `Prefix`. With the table
`[{Prefix "a.com/x"}, {Prefix "a.com/x/y"}]` and `m = "a.com/x/y/z"` the result is
the first rule. -/
theorem FindPrefix_no_longest_preference (T : VanityURLS) (m : String) (i j : Nat)
    (ri rj : VanityURL) (hij : i < j) (hi : T[i]? = some ri) (_hj : T[j]? = some rj)
    (hpi : LiteralPrefix ri.Prefix m) (_hpj : LiteralPrefix rj.Prefix m) :
    (∃ (k : Nat) (r : VanityURL), k ≤ i ∧ k < j ∧ T[k]? = some r ∧ FindPrefix T m = (r, true) ∧
        ∀ (k' : Nat) (r' : VanityURL), k' < k → T[k']? = some r' → ¬ LiteralPrefix r'.Prefix m) ∧
    (∀ g1 o1 g2 o2 : String,
        FindPrefix [⟨"a.com/x", g1, o1⟩, ⟨"a.com/x/y", g2, o2⟩] "a.com/x/y/z"
          = (⟨"a.com/x", g1, o1⟩, true)) := by
  constructor
  · have key := FindPrefix_cases T m
    simp only [HasPrefix_false_iff, HasPrefix_iff] at key
    rcases key with ⟨k, r, hk, _, hmin, hres⟩ | ⟨hnone, _⟩
    · refine ⟨k, r, ?_, ?_, hk, hres, hmin⟩
      · by_contra hlt
        exact hmin i ri (by omega) hi hpi
      · by_contra hlt
        exact hmin i ri (by omega) hi hpi
    · exact absurd hpi (hnone ri (List.getElem?_mem hi))
  · intro g1 o1 g2 o2
    have h : HasPrefix "a.com/x/y/z" "a.com/x" = true := by decide
    simp [FindPrefix, h]

/-- The two overlapping rules of C7, with the shorter `Prefix` first. -/
theorem FindPrefix_no_longest_preference_witness :
    (∃ (k : Nat) (r : VanityURL), k ≤ 0 ∧ k < 1 ∧
        ([⟨"a.com/x", "g1", "/o1"⟩, ⟨"a.com/x/y", "g2", "/o2"⟩] : VanityURLS)[k]? = some r ∧
        FindPrefix [⟨"a.com/x", "g1", "/o1"⟩, ⟨"a.com/x/y", "g2", "/o2"⟩] "a.com/x/y/z"
          = (r, true) ∧
        ∀ (k' : Nat) (r' : VanityURL), k' < k →
          ([⟨"a.com/x", "g1", "/o1"⟩, ⟨"a.com/x/y", "g2", "/o2"⟩] : VanityURLS)[k']? = some r' →
          ¬ LiteralPrefix r'.Prefix "a.com/x/y/z") ∧
    (∀ g1 o1 g2 o2 : String,
        FindPrefix [⟨"a.com/x", g1, o1⟩, ⟨"a.com/x/y", g2, o2⟩] "a.com/x/y/z"
          = (⟨"a.com/x", g1, o1⟩, true)) :=
  FindPrefix_no_longest_preference
    [⟨"a.com/x", "g1", "/o1"⟩, ⟨"a.com/x/y", "g2", "/o2"⟩] "a.com/x/y/z" 0 1
    ⟨"a.com/x", "g1", "/o1"⟩ ⟨"a.com/x/y", "g2", "/o2"⟩ (by decide) (by simp) (by simp)
    ⟨"/y/z", by decide⟩ ⟨"/z", by decide⟩

/-- A rule of the table whose test succeeds makes the lookup succeed. -/
theorem FindPrefix_found_of_mem (T : VanityURLS) (m : String) (r : VanityURL) (hr : r ∈ T)
    (hp : HasPrefix m r.Prefix = true) : (FindPrefix T m).2 = true := by
  rcases FindPrefix_cases T m with ⟨_, _, _, _, _, hres⟩ | ⟨hnone, _⟩
  · rw [hres]
  · rw [hnone r hr] at hp
    exact absurd hp (by simp)

/-- C10: `FindPrefix` matches on raw characters and ignores path-segment
boundaries. For every table `T`, rule `r` of `T` and string `s` (the empty string
and strings not starting with `/` included), `FindPrefix(r.Prefix ++ s)` has
`found = true`; with the built-in table, `"foo.com/go/pkg/testing"` is redirected
by the rule for `"foo.com/go/pkg/test"`; and a rule with an empty `Prefix` matches
every module path. -/
theorem FindPrefix_ignores_segment_boundaries (T : VanityURLS) (r : VanityURL)
    (s : String) (hr : r ∈ T) :
    (FindPrefix T (r.Prefix ++ s)).2 = true ∧
    FindPrefix vanityURLS "foo.com/go/pkg/testing"
      = (⟨"foo.com/go/pkg/test", "git@bitbucket.org/fooOrg/test", "/src/golang"⟩, true) ∧
    (r.Prefix = "" → ∀ m : String, (FindPrefix T m).2 = true) := by
  refine ⟨?_, by decide, ?_⟩
  · exact FindPrefix_found_of_mem T _ r hr ((HasPrefix_iff _ _).mpr ⟨s, rfl⟩)
  · intro he m
    refine FindPrefix_found_of_mem T m r hr ((HasPrefix_iff _ _).mpr ⟨m, ?_⟩)
    rw [he]
    apply String.ext
    simp [String.data_append]

/-- The built-in rule followed by `"ing"`, which does not start a path segment. -/
theorem FindPrefix_ignores_segment_boundaries_witness :
    (FindPrefix vanityURLS
        ((⟨"foo.com/go/pkg/test", "git@bitbucket.org/fooOrg/test", "/src/golang"⟩ :
          VanityURL).Prefix ++ "ing")).2 = true ∧
    FindPrefix vanityURLS "foo.com/go/pkg/testing"
      = (⟨"foo.com/go/pkg/test", "git@bitbucket.org/fooOrg/test", "/src/golang"⟩, true) ∧
    ((⟨"foo.com/go/pkg/test", "git@bitbucket.org/fooOrg/test", "/src/golang"⟩ :
          VanityURL).Prefix = "" → ∀ m : String, (FindPrefix vanityURLS m).2 = true) :=
  FindPrefix_ignores_segment_boundaries vanityURLS
    ⟨"foo.com/go/pkg/test", "git@bitbucket.org/fooOrg/test", "/src/golang"⟩ "ing"
    (by simp [vanityURLS])

/-! ## Properties of `Fetch` -/

section
variable {W Host Repo Rev : Type}

/-- Without a matching rule `Fetch` is the single call of the generic fetcher. -/
theorem Fetch_of_not_found (f : Fetcher W Host Repo Rev) (ctx : Context) (mod ver : String)
    (w : W) (h : (FindPrefix vanityURLS mod).2 = false) :
    Fetch f ctx mod ver w =
      ⟨(f.goGetFetch ctx mod ver w).1.1, (f.goGetFetch ctx mod ver w).1.2,
       (f.goGetFetch ctx mod ver w).2,
       [⟨.goGetFetch ctx mod ver, (f.goGetFetch ctx mod ver w).1.2⟩]⟩ := by
  unfold Fetch
  rcases hv : FindPrefix vanityURLS mod with ⟨vanity, b⟩
  rw [hv] at h
  simp only at h
  subst h
  rfl

/-- C2: when no rule of the redirect table has a `Prefix` that is a prefix of
`mod`, `Fetch(ctx, mod, ver)` returns exactly the pair returned by the generic
fetcher `goGet.Fetch(ctx, mod, ver)`, leaves the world as that one call left it,
and executes no other step: the call is made once, with the same arguments. -/
theorem Fetch_delegates (f : Fetcher W Host Repo Rev) (ctx : Context) (mod ver : String)
    (w : W) (h : ∀ r ∈ vanityURLS, ¬ LiteralPrefix r.Prefix mod) :
    (Fetch f ctx mod ver w).result = (f.goGetFetch ctx mod ver w).1.1 ∧
    (Fetch f ctx mod ver w).err = (f.goGetFetch ctx mod ver w).1.2 ∧
    (Fetch f ctx mod ver w).world = (f.goGetFetch ctx mod ver w).2 ∧
    (Fetch f ctx mod ver w).trace =
      [⟨.goGetFetch ctx mod ver, (f.goGetFetch ctx mod ver w).1.2⟩] := by
  have hnf : (FindPrefix vanityURLS mod).2 = false := by
    rcases FindPrefix_cases vanityURLS mod with ⟨i, r, hi, hr, _, _⟩ | ⟨_, hres⟩
    · exact absurd ((HasPrefix_iff _ _).mp hr) (h r (List.getElem?_mem hi))
    · rw [hres]
  rw [Fetch_of_not_found f ctx mod ver w hnf]
  exact ⟨rfl, rfl, rfl, rfl⟩

/-- A module path outside the built-in table, on the in-memory fetcher. -/
theorem Fetch_delegates_witness :
    (∀ r ∈ vanityURLS, ¬ LiteralPrefix r.Prefix "github.com/pkg/errors") ∧
    (Fetch (memFetcher none) ⟨false⟩ "github.com/pkg/errors" "v0.8.1" []).result
      = ((memFetcher none).goGetFetch ⟨false⟩ "github.com/pkg/errors" "v0.8.1" []).1.1 ∧
    (Fetch (memFetcher none) ⟨false⟩ "github.com/pkg/errors" "v0.8.1" []).err
      = ((memFetcher none).goGetFetch ⟨false⟩ "github.com/pkg/errors" "v0.8.1" []).1.2 ∧
    (Fetch (memFetcher none) ⟨false⟩ "github.com/pkg/errors" "v0.8.1" []).world
      = ((memFetcher none).goGetFetch ⟨false⟩ "github.com/pkg/errors" "v0.8.1" []).2 ∧
    (Fetch (memFetcher none) ⟨false⟩ "github.com/pkg/errors" "v0.8.1" []).trace =
      [⟨.goGetFetch ⟨false⟩ "github.com/pkg/errors" "v0.8.1",
        ((memFetcher none).goGetFetch ⟨false⟩ "github.com/pkg/errors" "v0.8.1" []).1.2⟩] :=
  have hno : ∀ r ∈ vanityURLS, ¬ LiteralPrefix r.Prefix "github.com/pkg/errors" := by
    intro r hr
    rw [← HasPrefix_iff]
    simp only [vanityURLS, List.mem_singleton] at hr
    subst hr
    decide
  ⟨hno, Fetch_delegates (memFetcher none) ⟨false⟩ "github.com/pkg/errors" "v0.8.1" [] hno⟩

/-- A failing step decides the outcome: `nil`, the step's error wrapped, the world
the step left, and a trace that ends at the step. -/
theorem Fetch_of_step_fails (f : Fetcher W Host Repo Rev) (ctx : Context) (mod ver : String)
    (w : W) (vanity : VanityURL) (hv : FindPrefix vanityURLS mod = (vanity, true))
    (n : Nat) (e : GoError) (wf : W) (h : StepFails f vanity mod ver w n e wf) :
    (Fetch f ctx mod ver w).result = none ∧
    (Fetch f ctx mod ver w).err = some (errors.E op e) ∧
    (Fetch f ctx mod ver w).world = wf ∧
    (Fetch f ctx mod ver w).trace.map (fun ev => ev.call.name) = redirectSteps.take n := by
  unfold StepFails Archived ManifestRead Converted Resolved Built Opened Acquired at h
  rcases h with ⟨rfl, h1⟩ | ⟨rfl, _, _, h1, h2⟩ | ⟨rfl, _, _, ⟨_, _, h1, h2⟩, h3⟩ |
    ⟨rfl, _, _, _, ⟨_, ⟨_, _, h1, h2⟩, h3⟩, h4⟩ |
    ⟨rfl, _, _, _, ⟨_, _, ⟨_, ⟨_, _, h1, h2⟩, h3⟩, h4⟩, h5⟩ |
    ⟨rfl, _, _, _, ⟨_, _, ⟨_, _, ⟨_, ⟨_, _, h1, h2⟩, h3⟩, h4⟩, h5⟩, h6⟩ |
    ⟨rfl, _, _, _, _, _, ⟨_, ⟨_, _, ⟨_, _, ⟨_, ⟨_, _, h1, h2⟩, h3⟩, h4⟩, h5⟩, h6⟩, h7⟩ |
    ⟨rfl, _, _, _, ⟨_, _, ⟨_, ⟨_, _, ⟨_, _, ⟨_, ⟨_, _, h1, h2⟩, h3⟩, h4⟩, h5⟩, h6⟩, h7⟩, h8⟩
  · simp [Fetch, hv, h1, Call.name, redirectSteps]
  · simp [Fetch, hv, h1, h2, Call.name, redirectSteps]
  · simp [Fetch, hv, h1, h2, h3, Call.name, redirectSteps]
  · simp [Fetch, hv, h1, h2, h3, h4, Call.name, redirectSteps]
  · simp [Fetch, hv, h1, h2, h3, h4, h5, Call.name, redirectSteps]
  · simp [Fetch, hv, h1, h2, h3, h4, h5, h6, Call.name, redirectSteps]
  · simp [Fetch, hv, h1, h2, h3, h4, h5, h6, h7, Call.name, redirectSteps]
  · simp [Fetch, hv, h1, h2, h3, h4, h5, h6, h7, h8, Call.name, redirectSteps]

/-- When every step returns without error the outcome is the record made of
their results, with a `nil` error and the world the last step left. -/
theorem Fetch_of_succeeds (f : Fetcher W Host Repo Rev) (ctx : Context) (mod ver : String)
    (w : W) (vanity : VanityURL) (hv : FindPrefix vanityURLS mod = (vanity, true))
    (v : Version) (wf : W) (h : Succeeds f vanity mod ver w v wf) :
    (Fetch f ctx mod ver w).result = some v ∧
    (Fetch f ctx mod ver w).err = none ∧
    (Fetch f ctx mod ver w).world = wf ∧
    (Fetch f ctx mod ver w).trace.map (fun ev => ev.call.name) = redirectSteps := by
  unfold Succeeds Archived ManifestRead Converted Resolved Built Opened Acquired at h
  obtain ⟨_, _, _, _, ⟨_, _, ⟨_, ⟨_, _, ⟨_, _, ⟨_, ⟨_, _, h1, h2⟩, h3⟩, h4⟩, h5⟩, h6⟩, h7⟩,
    h8, rfl⟩ := h
  simp [Fetch, hv, h1, h2, h3, h4, h5, h6, h7, h8, Call.name, redirectSteps]

/-- The collaborators either make one step the first to fail or let every step
return without error. -/
theorem fails_or_succeeds (f : Fetcher W Host Repo Rev) (vanity : VanityURL)
    (mod ver : String) (w : W) :
    (∃ n e wf, StepFails f vanity mod ver w n e wf) ∨
    (∃ v wf, Succeeds f vanity mod ver w v wf) := by
  rcases h1 : f.TempDir "" "athens" w with ⟨e1 | root, w1⟩
  · exact Or.inl ⟨1, e1, w1, Or.inl ⟨rfl, h1⟩⟩
  have a1 : Acquired f w root w1 := h1
  rcases h2 : f.NewGitRepo root vanity.Git false vanity.Offset w1 with ⟨e2 | host, w2⟩
  · exact Or.inl ⟨2, e2, w2, Or.inr (Or.inl ⟨rfl, root, w1, a1, h2⟩)⟩
  have a2 : Opened f vanity w host w2 := ⟨root, w1, a1, h2⟩
  rcases h3 : f.NewCodeRepo host mod mod vanity.Offset w2 with ⟨e3 | repo, w3⟩
  · exact Or.inl ⟨3, e3, w3, Or.inr (Or.inr (Or.inl ⟨rfl, host, w2, a2, h3⟩))⟩
  have a3 : Built f vanity mod w host repo w3 := ⟨w2, a2, h3⟩
  rcases h4 : f.Stat host ver w3 with ⟨e4 | rev, w4⟩
  · exact Or.inl ⟨4, e4, w4, Or.inr (Or.inr (Or.inr (Or.inl ⟨rfl, host, repo, w3, a3, h4⟩)))⟩
  have a4 : Resolved f vanity mod ver w repo rev w4 := ⟨host, w3, a3, h4⟩
  rcases h5 : f.Convert repo rev ver w4 with ⟨e5 | info, w5⟩
  · exact Or.inl ⟨5, e5, w5,
      Or.inr (Or.inr (Or.inr (Or.inr (Or.inl ⟨rfl, repo, rev, w4, a4, h5⟩))))⟩
  have a5 : Converted f vanity mod ver w repo info w5 := ⟨rev, w4, a4, h5⟩
  rcases h6 : f.GoMod repo info.Version w5 with ⟨e6 | gomod, w6⟩
  · exact Or.inl ⟨6, e6, w6,
      Or.inr (Or.inr (Or.inr (Or.inr (Or.inr (Or.inl ⟨rfl, repo, info, w5, a5, h6⟩)))))⟩
  have a6 : ManifestRead f vanity mod ver w repo info gomod w6 := ⟨w5, a5, h6⟩
  rcases h7 : f.Zip repo info.Version w6 with ⟨⟨written, _ | e7⟩, w7⟩
  swap
  · exact Or.inl ⟨7, e7, w7,
      Or.inr (Or.inr (Or.inr (Or.inr (Or.inr (Or.inr (Or.inl
        ⟨rfl, repo, info, gomod, w6, written, a6, h7⟩))))))⟩
  have a7 : Archived f vanity mod ver w info gomod written w7 := ⟨repo, w6, a6, h7⟩
  rcases h8 : f.Marshal info with e8 | infoJSON
  · exact Or.inl ⟨8, e8, w7,
      Or.inr (Or.inr (Or.inr (Or.inr (Or.inr (Or.inr (Or.inr
        ⟨rfl, info, gomod, written, a7, h8⟩))))))⟩
  · exact Or.inr ⟨_, w7, info, gomod, written, infoJSON, a7, h8, rfl⟩

/-- A lookup that found a rule returned that rule with `found = true`. -/
theorem FindPrefix_eq_of_found (mod : String) (h : (FindPrefix vanityURLS mod).2 = true) :
    FindPrefix vanityURLS mod = ((FindPrefix vanityURLS mod).1, true) := by
  rw [← h]

/-- C3: for every module path that matches a redirect rule, `Fetch` is
all-or-nothing. If any step (workspace acquisition, repository open, code-repo
construction, `Stat`, `Convert`, `GoMod`, `Zip`, JSON marshalling) fails, `Fetch`
returns a `nil` result together with a non-`nil` error and no later step is
executed: the world is the one the failing step left and the trace ends at that
step. A non-`nil` result is returned only when every step succeeded, and then the
error is `nil`. -/
theorem Fetch_all_or_nothing (f : Fetcher W Host Repo Rev) (ctx : Context) (mod ver : String)
    (w : W) (h : (FindPrefix vanityURLS mod).2 = true) :
    AllOrNothing f (FindPrefix vanityURLS mod).1 mod ver w (Fetch f ctx mod ver w) := by
  have hv := FindPrefix_eq_of_found mod h
  refine ⟨?_, ?_, ?_⟩
  · intro n e wf hf
    obtain ⟨hr, he, hw, ht⟩ := Fetch_of_step_fails f ctx mod ver w _ hv n e wf hf
    refine ⟨hr, ?_, hw, ht⟩
    rw [he]
    simp
  · intro v hres
    rcases fails_or_succeeds f (FindPrefix vanityURLS mod).1 mod ver w with
      ⟨n, e, wf, hf⟩ | ⟨v', wf, hs⟩
    · have hr := (Fetch_of_step_fails f ctx mod ver w _ hv n e wf hf).1
      rw [hr] at hres
      simp at hres
    · obtain ⟨hr, he, hw, ht⟩ := Fetch_of_succeeds f ctx mod ver w _ hv v' wf hs
      rw [hr] at hres
      simp only [Option.some.injEq] at hres
      subst hres
      rw [hw]
      exact ⟨he, hs, ht⟩
  · intro hres
    rcases fails_or_succeeds f (FindPrefix vanityURLS mod).1 mod ver w with
      ⟨n, e, wf, hf⟩ | ⟨v', wf, hs⟩
    · have he := (Fetch_of_step_fails f ctx mod ver w _ hv n e wf hf).2.1
      refine ⟨?_, n, e, wf, hf⟩
      rw [he]
      simp
    · have hr := (Fetch_of_succeeds f ctx mod ver w _ hv v' wf hs).1
      rw [hr] at hres
      simp at hres

/-- A redirect whose `Stat` fails on the in-memory fetcher: `Stat` is the first
step to fail, and `Fetch` is all-or-nothing there. -/
theorem Fetch_all_or_nothing_witness :
    (FindPrefix vanityURLS "foo.com/go/pkg/test/sub").2 = true ∧
    StepFails (memFetcher (some 4)) (FindPrefix vanityURLS "foo.com/go/pkg/test/sub").1
      "foo.com/go/pkg/test/sub" "v1.2.0" [] 4 (.leaf "RevisionNotFound") ["/tmp/athens-1"] ∧
    AllOrNothing (memFetcher (some 4)) (FindPrefix vanityURLS "foo.com/go/pkg/test/sub").1
      "foo.com/go/pkg/test/sub" "v1.2.0" []
      (Fetch (memFetcher (some 4)) ⟨false⟩ "foo.com/go/pkg/test/sub" "v1.2.0" []) :=
  ⟨by decide,
   Or.inr (Or.inr (Or.inr (Or.inl ⟨rfl,
     "/tmp/athens-1:git@bitbucket.org/fooOrg/test", "foo.com/go/pkg/test/sub/src/golang",
     ["/tmp/athens-1"],
     ⟨["/tmp/athens-1"], ⟨"/tmp/athens-1", ["/tmp/athens-1"], rfl, rfl⟩, rfl⟩, rfl⟩))),
   Fetch_all_or_nothing (memFetcher (some 4)) ⟨false⟩ "foo.com/go/pkg/test/sub" "v1.2.0" []
     (by decide)⟩

/-- C6: for every module path matching a redirect rule and every failing step of
`Fetch`, the error returned by `Fetch` is `errors.E(op, err)` with
`op = "SubdirFetcher.Fetch"` and `err` the error that step returned, which is
preserved inside the wrapper; and `Fetch` returns no other error. -/
theorem Fetch_error_wrapped (f : Fetcher W Host Repo Rev) (ctx : Context) (mod ver : String)
    (w : W) (h : (FindPrefix vanityURLS mod).2 = true) :
    WrapsStepError f (FindPrefix vanityURLS mod).1 mod ver w (Fetch f ctx mod ver w) := by
  have hv := FindPrefix_eq_of_found mod h
  refine ⟨?_, ?_⟩
  · intro n e wf hf
    exact ⟨(Fetch_of_step_fails f ctx mod ver w _ hv n e wf hf).2.1, rfl, rfl⟩
  · intro x hx
    rcases fails_or_succeeds f (FindPrefix vanityURLS mod).1 mod ver w with
      ⟨n, e, wf, hf⟩ | ⟨v', wf, hs⟩
    · have he := (Fetch_of_step_fails f ctx mod ver w _ hv n e wf hf).2.1
      rw [he] at hx
      simp only [Option.some.injEq] at hx
      exact ⟨n, e, wf, hf, hx.symm⟩
    · have he := (Fetch_of_succeeds f ctx mod ver w _ hv v' wf hs).2.1
      rw [he] at hx
      simp at hx

/-- A redirect whose `GoMod` fails on the in-memory fetcher: `GoMod` is the first
step to fail, and the error of `Fetch` is its error, wrapped. -/
theorem Fetch_error_wrapped_witness :
    (FindPrefix vanityURLS "foo.com/go/pkg/test/sub").2 = true ∧
    StepFails (memFetcher (some 6)) (FindPrefix vanityURLS "foo.com/go/pkg/test/sub").1
      "foo.com/go/pkg/test/sub" "v1.2.0" [] 6 (.leaf "ManifestNotFound") ["/tmp/athens-1"] ∧
    WrapsStepError (memFetcher (some 6)) (FindPrefix vanityURLS "foo.com/go/pkg/test/sub").1
      "foo.com/go/pkg/test/sub" "v1.2.0" []
      (Fetch (memFetcher (some 6)) ⟨false⟩ "foo.com/go/pkg/test/sub" "v1.2.0" []) :=
  ⟨by decide,
   Or.inr (Or.inr (Or.inr (Or.inr (Or.inr (Or.inl ⟨rfl,
     "foo.com/go/pkg/test/sub/src/golang", ⟨"v1.2.0", 1500000000⟩, ["/tmp/athens-1"],
     ⟨"v1.2.0", ["/tmp/athens-1"],
      ⟨"/tmp/athens-1:git@bitbucket.org/fooOrg/test", ["/tmp/athens-1"],
       ⟨["/tmp/athens-1"], ⟨"/tmp/athens-1", ["/tmp/athens-1"], rfl, rfl⟩, rfl⟩, rfl⟩,
      rfl⟩, rfl⟩))))),
   Fetch_error_wrapped (memFetcher (some 6)) ⟨false⟩ "foo.com/go/pkg/test/sub" "v1.2.0" []
     (by decide)⟩

/-- C8: with the built-in table, `FindPrefix("foo.com/go/pkg/test/sub")` returns
`found = true` and the rule with `Prefix "foo.com/go/pkg/test"`,
`Git "git@bitbucket.org/fooOrg/test"` and `Offset "/src/golang"`. Consequently
`Fetch` for that module path takes the redirect path. It does not delegate: its
outcome is the same whatever the generic fetcher is. It acquires the workspace
first, and opens the repository with
`NewGitRepo(root, "git@bitbucket.org/fooOrg/test", false, "/src/golang")` in the
world the acquisition left: when that call fails `Fetch` returns its error, and
when it returns a handle the next step, `NewCodeRepo`, is run on that handle with
the same offset. -/
theorem Fetch_builtin_redirect (f : Fetcher W Host Repo Rev) (ctx : Context) (ver : String)
    (w : W) :
    FindPrefix vanityURLS "foo.com/go/pkg/test/sub"
      = (⟨"foo.com/go/pkg/test", "git@bitbucket.org/fooOrg/test", "/src/golang"⟩, true) ∧
    (∀ g, Fetch { f with goGetFetch := g } ctx "foo.com/go/pkg/test/sub" ver w
        = Fetch f ctx "foo.com/go/pkg/test/sub" ver w) ∧
    (∀ e w1, f.TempDir "" "athens" w = (.error e, w1) →
      (Fetch f ctx "foo.com/go/pkg/test/sub" ver w).result = none ∧
      (Fetch f ctx "foo.com/go/pkg/test/sub" ver w).err = some (errors.E op e) ∧
      (Fetch f ctx "foo.com/go/pkg/test/sub" ver w).world = w1) ∧
    (∀ root w1 e w2, f.TempDir "" "athens" w = (.ok root, w1) →
      f.NewGitRepo root "git@bitbucket.org/fooOrg/test" false "/src/golang" w1
        = (.error e, w2) →
      (Fetch f ctx "foo.com/go/pkg/test/sub" ver w).result = none ∧
      (Fetch f ctx "foo.com/go/pkg/test/sub" ver w).err = some (errors.E op e) ∧
      (Fetch f ctx "foo.com/go/pkg/test/sub" ver w).world = w2 ∧
      (Fetch f ctx "foo.com/go/pkg/test/sub" ver w).trace.map (fun ev => ev.call)
        = [.TempDir "" "athens",
           .NewGitRepo root "git@bitbucket.org/fooOrg/test" false "/src/golang"]) ∧
    (∀ root w1 host w2 e w3, f.TempDir "" "athens" w = (.ok root, w1) →
      f.NewGitRepo root "git@bitbucket.org/fooOrg/test" false "/src/golang" w1
        = (.ok host, w2) →
      f.NewCodeRepo host "foo.com/go/pkg/test/sub" "foo.com/go/pkg/test/sub" "/src/golang" w2
        = (.error e, w3) →
      (Fetch f ctx "foo.com/go/pkg/test/sub" ver w).result = none ∧
      (Fetch f ctx "foo.com/go/pkg/test/sub" ver w).err = some (errors.E op e) ∧
      (Fetch f ctx "foo.com/go/pkg/test/sub" ver w).world = w3) ∧
    (∀ n e wf,
      StepFails f ⟨"foo.com/go/pkg/test", "git@bitbucket.org/fooOrg/test", "/src/golang"⟩
        "foo.com/go/pkg/test/sub" ver w n e wf →
      (Fetch f ctx "foo.com/go/pkg/test/sub" ver w).result = none ∧
      (Fetch f ctx "foo.com/go/pkg/test/sub" ver w).err = some (errors.E op e) ∧
      (Fetch f ctx "foo.com/go/pkg/test/sub" ver w).world = wf) ∧
    (∀ v wf,
      Succeeds f ⟨"foo.com/go/pkg/test", "git@bitbucket.org/fooOrg/test", "/src/golang"⟩
        "foo.com/go/pkg/test/sub" ver w v wf →
      (Fetch f ctx "foo.com/go/pkg/test/sub" ver w).result = some v ∧
      (Fetch f ctx "foo.com/go/pkg/test/sub" ver w).err = none ∧
      (Fetch f ctx "foo.com/go/pkg/test/sub" ver w).world = wf) := by
  have hv : FindPrefix vanityURLS "foo.com/go/pkg/test/sub"
      = (⟨"foo.com/go/pkg/test", "git@bitbucket.org/fooOrg/test", "/src/golang"⟩, true) := by
    decide
  refine ⟨hv, ?_, ?_, ?_, ?_, ?_, ?_⟩
  · intro g
    unfold Fetch
    rw [hv]
  · intro e w1 h1
    simp [Fetch, hv, h1]
  · intro root w1 e w2 h1 h2
    simp [Fetch, hv, h1, h2]
  · intro root w1 host w2 e w3 h1 h2 h3
    simp [Fetch, hv, h1, h2, h3]
  · intro n e wf hf
    obtain ⟨hr, he, hw, _⟩ := Fetch_of_step_fails f ctx _ ver w _ hv n e wf hf
    exact ⟨hr, he, hw⟩
  · intro v wf hs
    obtain ⟨hr, he, hw, _⟩ := Fetch_of_succeeds f ctx _ ver w _ hv v wf hs
    exact ⟨hr, he, hw⟩

/-- The redirect of `"foo.com/go/pkg/test/sub"` on an in-memory fetcher whose
repository open fails: the error of `Fetch` is the error of `NewGitRepo` called
with the rule's location and offset in the directory `TempDir` created. -/
theorem Fetch_builtin_redirect_witness :
    (memFetcher (some 2)).TempDir "" "athens" []
      = (.ok "/tmp/athens-1", ["/tmp/athens-1"]) ∧
    (memFetcher (some 2)).NewGitRepo "/tmp/athens-1" "git@bitbucket.org/fooOrg/test" false
        "/src/golang" ["/tmp/athens-1"]
      = (.error (.leaf "RepositoryUnreachable"), ["/tmp/athens-1"]) ∧
    (Fetch (memFetcher (some 2)) ⟨false⟩ "foo.com/go/pkg/test/sub" "v1.2.0" []).result = none ∧
    (Fetch (memFetcher (some 2)) ⟨false⟩ "foo.com/go/pkg/test/sub" "v1.2.0" []).err
      = some (errors.E op (.leaf "RepositoryUnreachable")) ∧
    (Fetch (memFetcher (some 2)) ⟨false⟩ "foo.com/go/pkg/test/sub" "v1.2.0" []).world
      = ["/tmp/athens-1"] ∧
    (Fetch (memFetcher (some 2)) ⟨false⟩ "foo.com/go/pkg/test/sub" "v1.2.0" []).trace.map
        (fun ev => ev.call)
      = [.TempDir "" "athens",
         .NewGitRepo "/tmp/athens-1" "git@bitbucket.org/fooOrg/test" false "/src/golang"] :=
  ⟨rfl, rfl,
   (Fetch_builtin_redirect (memFetcher (some 2)) ⟨false⟩ "v1.2.0" []).2.2.2.1
     "/tmp/athens-1" ["/tmp/athens-1"] (.leaf "RepositoryUnreachable") ["/tmp/athens-1"]
     rfl rfl⟩

/-- C5: for every successful `Fetch` on a module path matching a redirect rule,
with `info = Convert(Stat(ver), ver)`: the result's `Semver` equals
`info.Version`, its `Info` is the JSON marshalling of `info`, its `Mod` is exactly
the bytes returned by `GoMod(info.Version)`, and its `Zip` stream yields exactly
the bytes `Zip(info.Version)` wrote. Manifest and archive are requested for the
canonical version `info.Version`, not for the raw requested version string. -/
theorem Fetch_success_contents (f : Fetcher W Host Repo Rev) (ctx : Context)
    (mod ver : String) (w : W) (v : Version)
    (h : (FindPrefix vanityURLS mod).2 = true)
    (hs : (Fetch f ctx mod ver w).result = some v) :
    AssembledFrom f mod ver w (Fetch f ctx mod ver w) v := by
  revert hs
  unfold AssembledFrom Fetch
  rcases hv : FindPrefix vanityURLS mod with ⟨vanity, b⟩
  rw [hv] at h
  simp only at h
  subst h
  dsimp only
  rcases h1 : f.TempDir "" "athens" w with ⟨e1 | root, w1⟩
  all_goals dsimp only
  · intro hs; simp at hs
  rcases h2 : f.NewGitRepo root vanity.Git false vanity.Offset w1 with ⟨e2 | host, w2⟩
  all_goals dsimp only
  · intro hs; simp at hs
  rcases h3 : f.NewCodeRepo host mod mod vanity.Offset w2 with ⟨e3 | repo, w3⟩
  all_goals dsimp only
  · intro hs; simp at hs
  rcases h4 : f.Stat host ver w3 with ⟨e4 | rev, w4⟩
  all_goals dsimp only
  · intro hs; simp at hs
  rcases h5 : f.Convert repo rev ver w4 with ⟨e5 | info, w5⟩
  all_goals dsimp only
  · intro hs; simp at hs
  rcases h6 : f.GoMod repo info.Version w5 with ⟨e6 | gomod, w6⟩
  all_goals dsimp only
  · intro hs; simp at hs
  rcases h7 : f.Zip repo info.Version w6 with ⟨⟨written, _ | e7⟩, w7⟩
  all_goals dsimp only
  swap
  · intro hs; simp at hs
  rcases h8 : f.Marshal info with e8 | infoJSON
  all_goals dsimp only
  · intro hs; simp at hs
  · intro hs
    simp only [Option.some.injEq] at hs
    subst hs
    refine ⟨vanity, root, w1, host, w2, repo, w3, rev, w4, info, w5, gomod, w6, written, w7,
      infoJSON, rfl, rfl, h2, h3, h4, h5, h6, h7, h8, rfl, rfl, rfl, rfl, ?_, ?_, ?_⟩
    · simp
    · simp
    · intro ev hev x hx
      simp only [List.mem_append, List.mem_singleton, List.mem_cons, List.not_mem_nil,
        or_false] at hev
      rcases hev with ((((((rfl | rfl) | rfl) | rfl) | rfl) | rfl) | rfl) | rfl <;>
        simp at hx <;> simp [hx]

/-- A redirect of the revision name `master`, whose canonical version differs
from the requested one. -/
theorem Fetch_success_contents_witness :
    (FindPrefix vanityURLS "foo.com/go/pkg/test/sub").2 = true ∧
    (Fetch (memFetcher none) ⟨false⟩ "foo.com/go/pkg/test/sub" "master" []).result
      = some { Mod := asBytes "module foo.com/go/pkg/test/sub/src/golang",
               Zip := asBytes "PKv0.0.0-20170714024000-master",
               Info := asBytes "v0.0.0-20170714024000-master",
               Semver := "v0.0.0-20170714024000-master" } ∧
    AssembledFrom (memFetcher none) "foo.com/go/pkg/test/sub" "master" []
      (Fetch (memFetcher none) ⟨false⟩ "foo.com/go/pkg/test/sub" "master" [])
      { Mod := asBytes "module foo.com/go/pkg/test/sub/src/golang",
        Zip := asBytes "PKv0.0.0-20170714024000-master",
        Info := asBytes "v0.0.0-20170714024000-master",
        Semver := "v0.0.0-20170714024000-master" } :=
  ⟨by decide, by decide,
   Fetch_success_contents (memFetcher none) ⟨false⟩ "foo.com/go/pkg/test/sub" "master" [] _
     (by decide) (by decide)⟩

/-- C4, refuted as stated: with the in-memory fetcher, `Fetch` on a matching
module path creates `/tmp/athens-1`, and the directory still exists when `Fetch`
has returned, after a success as well as after a failing `Stat`. -/
theorem Fetch_workspace_left_behind :
    (memFetcher none).TempDir "" "athens" [] = (.ok "/tmp/athens-1", ["/tmp/athens-1"]) ∧
    (Fetch (memFetcher none) ⟨false⟩ "foo.com/go/pkg/test/sub" "v1.2.0" []).err = none ∧
    "/tmp/athens-1" ∈
      (Fetch (memFetcher none) ⟨false⟩ "foo.com/go/pkg/test/sub" "v1.2.0" []).world ∧
    (Fetch (memFetcher (some 4)) ⟨false⟩ "foo.com/go/pkg/test/sub" "v1.2.0" []).err
      = some (errors.E op (.leaf "RevisionNotFound")) ∧
    "/tmp/athens-1" ∈
      (Fetch (memFetcher (some 4)) ⟨false⟩ "foo.com/go/pkg/test/sub" "v1.2.0" []).world :=
  ⟨rfl, by decide, by decide, by decide, by decide⟩

/-- C4, amended: on a module path that matches a redirect rule `Fetch` acquires
its workspace directory with `afero.TempDir` and has no release step. On every
exit path, the directory that `TempDir` created still exists when `Fetch` has
returned, provided none of the later steps removed it. -/
theorem Fetch_keeps_workspace (f : Fetcher W Host Repo Rev) (dirExists : W → String → Prop)
    (ctx : Context) (mod ver : String) (w w1 : W) (root : String)
    (h : (FindPrefix vanityURLS mod).2 = true)
    (ht : f.TempDir "" "athens" w = (.ok root, w1))
    (hc : dirExists w1 root)
    (hu : Undisturbed f dirExists root) :
    dirExists (Fetch f ctx mod ver w).world root := by
  obtain ⟨u2, u3, u4, u5, u6, u7⟩ := hu
  unfold Fetch
  rcases hv : FindPrefix vanityURLS mod with ⟨vanity, b⟩
  rw [hv] at h
  simp only at h
  subst h
  dsimp only
  rw [ht]
  dsimp only
  have k2 := u2 vanity.Git false vanity.Offset w1 hc
  rcases h2 : f.NewGitRepo root vanity.Git false vanity.Offset w1 with ⟨e2 | host, w2⟩
  all_goals rw [h2] at k2
  all_goals dsimp only at k2 ⊢
  · exact k2
  have k3 := u3 host mod mod vanity.Offset w2 k2
  rcases h3 : f.NewCodeRepo host mod mod vanity.Offset w2 with ⟨e3 | repo, w3⟩
  all_goals rw [h3] at k3
  all_goals dsimp only at k3 ⊢
  · exact k3
  have k4 := u4 host ver w3 k3
  rcases h4 : f.Stat host ver w3 with ⟨e4 | rev, w4⟩
  all_goals rw [h4] at k4
  all_goals dsimp only at k4 ⊢
  · exact k4
  have k5 := u5 repo rev ver w4 k4
  rcases h5 : f.Convert repo rev ver w4 with ⟨e5 | info, w5⟩
  all_goals rw [h5] at k5
  all_goals dsimp only at k5 ⊢
  · exact k5
  have k6 := u6 repo info.Version w5 k5
  rcases h6 : f.GoMod repo info.Version w5 with ⟨e6 | gomod, w6⟩
  all_goals rw [h6] at k6
  all_goals dsimp only at k6 ⊢
  · exact k6
  have k7 := u7 repo info.Version w6 k6
  rcases h7 : f.Zip repo info.Version w6 with ⟨⟨written, _ | e7⟩, w7⟩
  all_goals rw [h7] at k7
  all_goals dsimp only at k7 ⊢
  swap
  · exact k7
  rcases h8 : f.Marshal info with e8 | infoJSON
  all_goals dsimp only
  · exact k7
  · exact k7

/-- A redirect with a failing `Convert` on the in-memory file system. -/
theorem Fetch_keeps_workspace_witness :
    (FindPrefix vanityURLS "foo.com/go/pkg/test/sub").2 = true ∧
    (memFetcher (some 5)).TempDir "" "athens" [] = (.ok "/tmp/athens-1", ["/tmp/athens-1"]) ∧
    "/tmp/athens-1" ∈
      (Fetch (memFetcher (some 5)) ⟨false⟩ "foo.com/go/pkg/test/sub" "v1.2.0" []).world :=
  ⟨by decide, rfl,
   Fetch_keeps_workspace (memFetcher (some 5)) (fun w d => d ∈ w) ⟨false⟩
     "foo.com/go/pkg/test/sub" "v1.2.0" [] ["/tmp/athens-1"] "/tmp/athens-1"
     (by decide) rfl (by decide)
     ⟨by intros; simpa [memFetcher], by intros; simpa [memFetcher],
      by intros; simpa [memFetcher], by intros; simpa [memFetcher],
      by intros; simpa [memFetcher], by intros; simpa [memFetcher]⟩⟩

/-- C9, refuted as stated: called on a matching module path with a context that
is already cancelled, `Fetch` runs every step, returns a record with a `nil`
error, and leaves the workspace directory in place. -/
theorem Fetch_cancelled_context_succeeds :
    (FindPrefix vanityURLS "foo.com/go/pkg/test/sub").2 = true ∧
    (Fetch (memFetcher none) ⟨true⟩ "foo.com/go/pkg/test/sub" "v1.2.0" []).result
      = some { Mod := asBytes "module foo.com/go/pkg/test/sub/src/golang",
               Zip := asBytes "PKv1.2.0", Info := asBytes "v1.2.0", Semver := "v1.2.0" } ∧
    (Fetch (memFetcher none) ⟨true⟩ "foo.com/go/pkg/test/sub" "v1.2.0" []).err = none ∧
    (Fetch (memFetcher none) ⟨true⟩ "foo.com/go/pkg/test/sub" "v1.2.0" []).world
      = ["/tmp/athens-1"] := by
  decide

/-- C9, amended: on a module path that matches a redirect rule `Fetch` never
consults the supplied context. Result, error, final world and executed steps are
the same for a cancelled context as for a live one. -/
theorem Fetch_ignores_context (f : Fetcher W Host Repo Rev) (ctx ctx' : Context)
    (mod ver : String) (w : W) (h : (FindPrefix vanityURLS mod).2 = true) :
    Fetch f ctx mod ver w = Fetch f ctx' mod ver w := by
  unfold Fetch
  rcases hv : FindPrefix vanityURLS mod with ⟨vanity, b⟩
  rw [hv] at h
  simp only at h
  subst h
  rfl

/-- A cancelled and a live context on the in-memory fetcher. -/
theorem Fetch_ignores_context_witness :
    (FindPrefix vanityURLS "foo.com/go/pkg/test/sub").2 = true ∧
    Fetch (memFetcher none) ⟨true⟩ "foo.com/go/pkg/test/sub" "v1.2.0" []
      = Fetch (memFetcher none) ⟨false⟩ "foo.com/go/pkg/test/sub" "v1.2.0" [] :=
  ⟨by decide,
   Fetch_ignores_context (memFetcher none) ⟨true⟩ ⟨false⟩ "foo.com/go/pkg/test/sub" "v1.2.0" []
     (by decide)⟩

end

end SubdirFetcher
